import Mathlib

/-!
Verification of the voice-call bridge core: shallow embeddings of the
Voximplant provider adapter, the OpenAI realtime session, the media-stream
TTS queue, and the gateway hook endpoint, with theorems settling the
behavioural claims about them.

All definitions are transcribed from the TypeScript sources
(providers/voximplant.ts, providers/stt-openai-realtime.ts, media-stream.ts,
gateway/server-http.ts).  JavaScript strings are modelled as Lean `String`
(the values involved are ASCII), JS numbers that carry timestamps as `Int`,
and JS `undefined` as `Option`.
-/

namespace VoiceBridge

/-! ## String helpers (JS `String.prototype.includes` over lowercase text) -/

/-- Does `hay` start with `needle` (character-wise)? -/
def startsList : List Char → List Char → Bool
  | [], _ => true
  | _ :: _, [] => false
  | a :: as, b :: bs => a == b && startsList as bs

/-- Does `hay` contain `needle` as a contiguous run?  Drives the
JS `value.includes(needle)` calls of `mapEndReason`. -/
def containsChars (needle : List Char) : List Char → Bool
  | [] => needle.isEmpty
  | b :: bs => startsList needle (b :: bs) || containsChars needle bs

/-- JS `hay.includes(needle)` on strings. -/
def strIncludes (hay needle : String) : Bool :=
  containsChars needle.toList hay.toList

/-- ASCII lower-casing, the effect of JS `toLowerCase` on the inputs here. -/
def lowerStr (s : String) : String :=
  String.mk (s.toList.map Char.toLower)

/-- ASCII whitespace, as stripped by JS `String.prototype.trim`. -/
def isWsChar (c : Char) : Bool :=
  c == ' ' || c == '\t' || c == '\n' || c == '\r' || c == '\x0b' || c == '\x0c'

/-- JS `trim`: strip whitespace from both ends. -/
def jsTrim (s : String) : String :=
  String.mk (((s.toList.dropWhile isWsChar).reverse.dropWhile isWsChar).reverse)

/-! ## End-reason mapping (`VoximplantProvider.mapEndReason`) -/

/-- The canonical terminal end reasons of the call state machine. -/
inductive EndReason
  | busy
  | noAnswer
  | voicemail
  | timeout
  | hangupUser
  | hangupBot
  | failed
  | completed
  deriving DecidableEq, Repr

/-- Canonical serialized name of each end reason (the `EndReason` string
union of types.ts). -/
def endReasonStr : EndReason → String
  | .busy => "busy"
  | .noAnswer => "no-answer"
  | .voicemail => "voicemail"
  | .timeout => "timeout"
  | .hangupUser => "hangup-user"
  | .hangupBot => "hangup-bot"
  | .failed => "failed"
  | .completed => "completed"

/-- Embeds `VoximplantProvider.mapEndReason` (voximplant.ts lines 727-755): trims and
lower-cases the raw reason, then tests substrings in source order with
`completed` as the default. -/
def mapEndReason (raw : Option String) : EndReason :=
  match raw with
  | none => .completed
  | some r =>
    let value := lowerStr (jsTrim r)
    if value = "" then .completed
    else if strIncludes value "busy" then .busy
    else if strIncludes value "no-answer" || strIncludes value "no answer" then .noAnswer
    else if strIncludes value "voicemail" then .voicemail
    else if strIncludes value "timeout" then .timeout
    else if strIncludes value "hangup-user" || strIncludes value "user" then .hangupUser
    else if strIncludes value "hangup-bot" || strIncludes value "bot" then .hangupBot
    else if strIncludes value "error" || strIncludes value "fail" then .failed
    else .completed

/-! ## Stream-token validation (`VoximplantProvider.isValidStreamToken`) -/

/-- Association-list lookup standing in for `Map.prototype.get`. -/
def lookupKey (m : List (String × String)) (k : String) : Option String :=
  (m.find? (fun p => p.1 == k)).map (fun p => p.2)

/-- Embeds `VoximplantProvider.isValidStreamToken` (voximplant.ts lines 166-177).
The second component counts the `crypto.timingSafeEqual` invocations the
call performs, so that the dummy comparison on a length mismatch is
observable.  `timingSafeEqual` on equal-length ASCII buffers is byte
equality, i.e. string equality. -/
def isValidStreamToken (store : List (String × String)) (callKey : String)
    (token : Option String) : Bool × Nat :=
  match lookupKey store callKey with
  | none => (false, 0)
  | some expected =>
    match token with
    | none => (false, 0)
    | some t =>
      if expected = "" ∨ t = "" then (false, 0)
      else if expected.length ≠ t.length then (false, 1)
      else (expected == t, 1)

/-! ## Management-API JWT (`VoximplantProvider.getManagementJwt` and
`managementApiRequest`) -/

/-- Service-account credentials (`managementAccountId` / `managementKeyId` /
`managementPrivateKey`). -/
structure ServiceAccount where
  accountId : String
  keyId : String
  privateKey : String
  deriving DecidableEq, Repr

/-- The data signed into a management JWT by `generateManagementJwt`
(voximplant.ts lines 523-538): header `alg=RS256, typ=JWT, kid`, payload
`iat, iss, exp`.  Base64url/JSON encoding and deterministic RSA-SHA256
signing are injective on these fields, so two tokens are equal exactly when
these components are. -/
structure JwtParts where
  kid : String
  iss : String
  iat : Int
  exp : Int
  deriving DecidableEq, Repr

/-- A bearer token used against the management API: either a generated
service-account JWT or the statically configured `managementJwt`. -/
inductive MgmtToken
  | signed (parts : JwtParts)
  | fixed (s : String)
  deriving DecidableEq, Repr

/-- The `CachedJwt` record of voximplant.ts: the token plus its expiry second. -/
structure CachedJwt where
  token : JwtParts
  exp : Int
  deriving DecidableEq, Repr

/-- The provider fields involved in management authentication. -/
structure VoxAuthState where
  serviceAccount : Option ServiceAccount
  staticJwt : Option String
  refreshSkewSec : Int
  cached : Option CachedJwt
  deriving DecidableEq, Repr

/-- Embeds `VoximplantProvider.generateManagementJwt` (lines 523-538):
`exp = nowSec + 3600`, header `kid = keyId`, payload
`iat = nowSec, iss = accountId`. -/
def generateManagementJwt (sa : ServiceAccount) (nowSec : Int) : CachedJwt :=
  { token := { kid := sa.keyId, iss := sa.accountId, iat := nowSec, exp := nowSec + 3600 }
  , exp := nowSec + 3600 }

/-- Embeds `VoximplantProvider.getManagementJwt` (lines 503-521).  Here `now` is
`Math.floor(Date.now() / 1000)`.  In service-account mode the cached token
is reused while `cached.exp - refreshSkewSec > now` and `forceRefresh` is
not set; otherwise a fresh token is generated and cached. -/
def getManagementJwt (st : VoxAuthState) (forceRefresh : Bool) (now : Int) :
    Except String (MgmtToken × VoxAuthState) :=
  match st.serviceAccount with
  | some sa =>
    match st.cached with
    | some c =>
      if !forceRefresh && decide (c.exp - st.refreshSkewSec > now) then
        .ok (.signed c.token, st)
      else
        let next := generateManagementJwt sa now
        .ok (.signed next.token, { st with cached := some next })
    | none =>
      let next := generateManagementJwt sa now
      .ok (.signed next.token, { st with cached := some next })
  | none =>
    match st.staticJwt with
    | some t => .ok (.fixed t, st)
    | none => .error "Voximplant management JWT is not configured"

/-- The authentication/retry skeleton of
`VoximplantProvider.managementApiRequest` (lines 344-398): fetch with a
bearer token from `getManagementJwt`; if the response status is 401 and
service-account mode is enabled, rotate the token (`forceRefresh = true`)
and retry exactly once.  `status1` is the status of the first response;
`now1`/`now2` are the clock readings at the two `getManagementJwt` calls.
The result lists the bearer tokens of the requests actually issued. -/
def managementApiRequest (st : VoxAuthState) (now1 now2 : Int) (status1 : Nat) :
    Except String (List MgmtToken × VoxAuthState) :=
  match getManagementJwt st false now1 with
  | .error e => .error e
  | .ok (tok1, st1) =>
    if status1 == 401 && st.serviceAccount.isSome then
      match getManagementJwt st1 true now2 with
      | .error e => .error e
      | .ok (tok2, st2) => .ok ([tok1, tok2], st2)
    else
      .ok ([tok1], st1)

/-! ## Realtime session close handling (`OpenAIRealtimeSession`) -/

/-- The `RealtimeMode` union of stt-openai-realtime.ts. -/
inductive RealtimeMode
  | transcription
  | conversation
  deriving DecidableEq, Repr

/-- The session fields that the WebSocket close handler and
`attemptReconnect` read and write. -/
structure RtSessionState where
  mode : RealtimeMode
  connected : Bool
  closed : Bool
  reconnectAttempts : Nat
  deriving DecidableEq, Repr

/-- The close-notification hook invoked in the conversation branch of the
close handler (stt-openai-realtime.ts line 1200, `this.onCloseCallback?.()`).
The property is referenced exactly there and is never declared on the class,
assigned by the constructor, or exposed through any setter
(`onPartial`/`onTranscript`/`onSpeechStart`/`onAssistantPartial`/
`onAssistantTranscript`/`onAssistantAudio` are the only callback setters),
so at runtime it is always `undefined`: the optional call is a no-op. -/
def onCloseCallback : Option Unit := none

/-- A notification that reaches a consumer of the session from the close
handler. -/
inductive CloseNotice
  | consumerCloseHook
  deriving DecidableEq, Repr

/-- The `ws.on("close", ...)` handler (lines 1185-1205).  Returns the new
session state, whether `attemptReconnect` was invoked, and the
notifications delivered to consumers. -/
def handleWsClose (s : RtSessionState) : RtSessionState × Bool × List CloseNotice :=
  let s1 := { s with connected := false }
  if s1.closed then (s1, false, [])
  else if s1.mode == .conversation then
    ({ s1 with closed := true }, false,
      match onCloseCallback with
      | some _ => [.consumerCloseHook]
      | none => [])
  else (s1, true, [])

/-- Embeds `OpenAIRealtimeSession.attemptReconnect` (lines 1313-1342):
refuses when closed or after `MAX_RECONNECT_ATTEMPTS = 5` attempts,
otherwise increments the counter and schedules a reconnect after
`RECONNECT_DELAY_MS * 2 ^ (attempts - 1)` milliseconds.  The second
component is the backoff delay of the attempted reconnect, if any. -/
def attemptReconnect (s : RtSessionState) : RtSessionState × Option Nat :=
  if s.closed then (s, none)
  else if s.reconnectAttempts ≥ 5 then (s, none)
  else
    let n := s.reconnectAttempts + 1
    ({ s with reconnectAttempts := n }, some (1000 * 2 ^ (n - 1)))

/-- One unexpected WebSocket close: the close handler followed by the
reconnect attempt it may trigger. -/
def closeEvent (s : RtSessionState) : RtSessionState × Option Nat × List CloseNotice :=
  let (s1, doReconnect, notes) := handleWsClose s
  if doReconnect then
    let (s2, d) := attemptReconnect s1
    (s2, d, notes)
  else (s1, none, notes)

/-- A streak of `n` unexpected closes (each reconnect attempt failing and
producing the next close event); collects the backoff delays of the
reconnects actually attempted. -/
def closeStreak : RtSessionState → Nat → RtSessionState × List Nat
  | s, 0 => (s, [])
  | s, n + 1 =>
    let (s1, d, _) := closeEvent s
    let (s2, ds) := closeStreak s1 n
    (s2, d.toList ++ ds)

/-! ## Realtime assistant-transcript events (`OpenAIRealtimeSession.handleEvent`) -/

/-- The server events relevant to assistant-final emission. -/
inductive RtEvent
  /-- Event `response.audio_transcript.delta` / `response.output_text.delta` -/
  | assistantDelta (d : String)
  /-- Event `response.audio_transcript.done` / `response.output_text.done`, with
  the optional `transcript` and `text` payload fields -/
  | assistantDone (transcript : Option String) (text : Option String)
  /-- Event `response.output_item.done` -/
  | outputItemDone
  deriving DecidableEq, Repr

/-- Callback invocations observable by the session consumer. -/
inductive RtEmit
  | assistantPartial (s : String)
  | assistantFinal (s : String)
  deriving DecidableEq, Repr

/-- JS `x || fallback` on an optional string (empty string is falsy). -/
def jsOrStr : Option String → String → String
  | some s, fb => if s = "" then fb else s
  | none, fb => fb

/-- The assistant-transcript cases of `OpenAIRealtimeSession.handleEvent`
(lines 1418-1452), acting on `pendingAssistantTranscript`.  The done event
resolves `transcript || text || pending.trim()` and emits the assistant
final exactly when that is non-empty; `response.output_item.done`
deliberately emits nothing. -/
def handleRtEvent (mode : RealtimeMode) (pending : String) :
    RtEvent → String × List RtEmit
  | .assistantDelta d =>
    if mode ≠ .conversation then (pending, [])
    else if d = "" then (pending, [])
    else
      let p := pending ++ d
      (p, [.assistantPartial p])
  | .assistantDone tr tx =>
    if mode ≠ .conversation then (pending, [])
    else
      let transcript := jsOrStr tr (jsOrStr tx "")
      let resolved := if transcript = "" then pending.trim else transcript
      ("", if resolved = "" then [] else [.assistantFinal resolved])
  | .outputItemDone => (pending, [])

/-- Process a sequence of server events, accumulating emissions. -/
def runRtEvents (mode : RealtimeMode) (pending : String) :
    List RtEvent → String × List RtEmit
  | [] => (pending, [])
  | e :: es =>
    let r1 := handleRtEvent mode pending e
    let r2 := runRtEvents mode r1.1 es
    (r2.1, r1.2 ++ r2.2)

/-- Number of assistant-final emissions in an emission list. -/
def countFinal (out : List RtEmit) : Nat :=
  (out.filter fun e => match e with | .assistantFinal _ => true | _ => false).length

/-! ## Gateway hook endpoint (`createHooksRequestHandler`,
`recordHookAuthFailure`) -/

/-- The `HookAuthFailure` record of server-http.ts line 65. -/
structure HookAuthFailure where
  count : Nat
  windowStartedAtMs : Int
  deriving DecidableEq, Repr

/-- The `hookAuthFailures` map, as an association list in `Map` insertion
order (oldest first). -/
abbrev HookMap := List (String × HookAuthFailure)

/-- JS `Map.prototype.get`. -/
def lookupFailure (m : HookMap) (k : String) : Option HookAuthFailure :=
  (m.find? (fun p => p.1 == k)).map (fun p => p.2)

/-- JS `Map.prototype.delete` (at most one entry per key is ever present). -/
def eraseKey (m : HookMap) (k : String) : HookMap :=
  m.filter (fun p => !(p.1 == k))

/-- JS `Math.ceil(ms / 1000)` for the positive values produced here. -/
def ceilSec (ms : Int) : Nat := ((ms + 999) / 1000).toNat

/-- The capacity-eviction prologue of `recordHookAuthFailure`
(server-http.ts lines 454-472): when the client key is new and the map is
at `HOOK_AUTH_FAILURE_TRACK_MAX = 2048` keys, prune expired windows first;
if still at capacity, drop the oldest half (the front of the map in
insertion order). -/
def hookEvict (m : HookMap) (clientKey : String) (nowMs : Int) : HookMap :=
  if (lookupFailure m clientKey).isNone && decide (m.length ≥ 2048) then
    let pruned := m.filter (fun p => decide (nowMs - p.2.windowStartedAtMs < 60000))
    if pruned.length ≥ 2048 then pruned.drop (pruned.length / 2) else pruned
  else m

/-- The successor failure entry (lines 473-477): restart the window when
the current one is absent or has lasted `HOOK_AUTH_FAILURE_WINDOW_MS`
(60000 ms), otherwise increment the counter. -/
def hookNext (m1 : HookMap) (clientKey : String) (nowMs : Int) : HookAuthFailure :=
  match lookupFailure m1 clientKey with
  | none => { count := 1, windowStartedAtMs := nowMs }
  | some c =>
    if nowMs - c.windowStartedAtMs ≥ 60000 then { count := 1, windowStartedAtMs := nowMs }
    else { count := c.count + 1, windowStartedAtMs := c.windowStartedAtMs }

/-- Embeds `recordHookAuthFailure` (server-http.ts lines 450-492) with
`HOOK_AUTH_FAILURE_LIMIT = 20`.  Returns `(throttled, retryAfterSeconds)`
and the updated map; delete-before-set refreshes insertion order, modelled
by erase-then-append. -/
def recordHookAuthFailure (m : HookMap) (clientKey : String) (nowMs : Int) :
    (Bool × Option Nat) × HookMap :=
  let m1 := hookEvict m clientKey nowMs
  let next := hookNext m1 clientKey nowMs
  let m2 := eraseKey m1 clientKey ++ [(clientKey, next)]
  if next.count ≤ 20 then ((false, none), m2)
  else
    let retryAfterMs := max 1 (next.windowStartedAtMs + 60000 - nowMs)
    ((true, some (ceilSec retryAfterMs)), m2)

/-- Runs `n` consecutive auth failures for the same client key, all at time
`nowMs`, starting from an empty map; returns the last response and the map. -/
def recordTrace (clientKey : String) (nowMs : Int) : Nat → (Bool × Option Nat) × HookMap
  | 0 => ((false, none), [])
  | n + 1 => recordHookAuthFailure (recordTrace clientKey nowMs n).2 clientKey nowMs

/-- Responses of the hook request handler authentication phase. -/
inductive HookResp
  /-- Status 400: token supplied via query string (lines 509-516) -/
  | badRequestQueryToken
  /-- Status 429 with `Retry-After` (lines 522-530) -/
  | tooMany (retryAfterSec : Nat)
  /-- Status 401 (lines 531-534) -/
  | unauthorized
  /-- authentication passed; the request continues toward dispatch -/
  | proceed
  deriving DecidableEq, Repr

/-- The authentication phase of the handler returned by
`createHooksRequestHandler` (lines 509-536).  `hasQueryToken` is
`url.searchParams.has("token")`; `tokenOk` is the outcome of
`safeEqualSecret(extractHookToken(req), hooksConfig.token)`.  The final
`Bool` records whether that token comparison was performed at all. -/
def hooksAuthPhase (hasQueryToken : Bool) (tokenOk : Bool) (clientKey : String)
    (nowMs : Int) (m : HookMap) : HookResp × HookMap × Bool :=
  if hasQueryToken then (.badRequestQueryToken, m, false)
  else if !tokenOk then
    let r := recordHookAuthFailure m clientKey nowMs
    if r.1.1 then (.tooMany (r.1.2.getD 1), r.2, true)
    else (.unauthorized, r.2, true)
  else (.proceed, eraseKey m clientKey, true)

/-! ## Per-stream TTS queue (`MediaStreamHandler.queueTts` / `processQueue` /
`clearTtsQueue`, media-stream.ts lines 2481-2588, and
`VoximplantProvider.playTtsViaStream`, voximplant.ts lines 439-466)

The model tracks one stream.  Each queued operation is identified by its
enqueue ordinal.  A play function is abstracted by its observable script:
`ok n` is a `playTtsViaStream`-shaped operation that emits `n` media frames
(checking `signal.aborted` before every frame, as the source does before
each chunk and after each sleep) and then a mark; `failing` is a play
function that throws a non-abort error.  Execution is at the granularity of
the JS event loop: `step` resumes the in-flight play function at its next
suspension point, `clear` is a `clearTtsQueue` call interleaved while the
play function is suspended, `enqueue` is a `queueTts` call (which starts
`processQueue` synchronously when `ttsPlaying` is unset). -/

/-- Observable behaviour of one queued play function. -/
inductive TtsScript
  | ok (chunks : Nat)
  | failing
  deriving DecidableEq, Repr

/-- A queue entry: enqueue ordinal plus script. -/
structure TtsEntry where
  id : Nat
  script : TtsScript
  deriving DecidableEq, Repr

/-- The in-flight operation: its entry, the media frames still to emit, and
whether its `AbortController` has been aborted. -/
structure RunningTts where
  entry : TtsEntry
  remaining : Nat
  aborted : Bool
  deriving DecidableEq, Repr

/-- Frames emitted to the carrier WebSocket, tagged (for `media`/`mark`)
with the operation that emitted them. -/
inductive Frame
  | media (opId : Nat)
  | mark (opId : Nat)
  | clear
  deriving DecidableEq, Repr

/-- The per-stream queue state: `queue` / `running` are the pending FIFO and
the shifted in-flight entry of `processQueue`, `playing` is the
`ttsPlaying` flag, `settled` records promise settlements in order
(`true` = resolved, `false` = rejected), `output` the frames sent. -/
structure TtsState where
  queue : List TtsEntry
  running : Option RunningTts
  playing : Bool
  nextId : Nat
  settled : List (Nat × Bool)
  output : List Frame
  deriving DecidableEq, Repr

/-- The state before any operation is queued. -/
def initTts : TtsState :=
  { queue := [], running := none, playing := false, nextId := 0
  , settled := [], output := [] }

/-- Shift an entry into execution (its controller is fresh, not aborted). -/
def startEntry (e : TtsEntry) : RunningTts :=
  { entry := e
  , remaining := match e.script with | .ok n => n | .failing => 0
  , aborted := false }

/-- Settle the in-flight operation and let the `processQueue` loop continue:
shift the next queue entry, or unset `ttsPlaying` when the queue is empty. -/
def finishEntry (st : TtsState) (id : Nat) (resolved : Bool) : TtsState :=
  let st1 := { st with settled := st.settled ++ [(id, resolved)] }
  match st1.queue with
  | [] => { st1 with running := none, playing := false }
  | e :: rest => { st1 with queue := rest, running := some (startEntry e) }

/-- External events driving one stream. -/
inductive TtsEv
  | enqueue (s : TtsScript)
  | step
  | clear
  deriving DecidableEq, Repr

/-- One transition of the queue model.

`enqueue`: `queueTts` pushes the entry; when `ttsPlaying` is unset it
invokes `processQueue`, which synchronously shifts the entry and runs its
play function to the first suspension point.

`step`: the event loop resumes the in-flight play function.  An aborted
operation observes `signal.aborted`, breaks out of its chunk loop without
sending audio or a mark, and its promise resolves (`processQueue` resolves
on abort even when the play function threw).  Otherwise an `ok` operation
emits its next media frame, or — when out of chunks — its mark, and
resolves; a `failing` operation throws and `processQueue` rejects its
promise.  In every settle case the loop iterates to the next queue entry.

`clear`: `clearTtsQueue` truncates the queue (`queue.length = 0`), aborts
the active controller, and sends a `clear` frame (`clearAudio`). -/
def ttsStep (st : TtsState) : TtsEv → TtsState
  | .enqueue s =>
    let e : TtsEntry := { id := st.nextId, script := s }
    if st.playing then
      { st with nextId := st.nextId + 1, queue := st.queue ++ [e] }
    else
      { st with nextId := st.nextId + 1, playing := true, running := some (startEntry e) }
  | .step =>
    match st.running with
    | none => st
    | some r =>
      if r.aborted then
        finishEntry st r.entry.id true
      else
        match r.entry.script with
        | .failing => finishEntry st r.entry.id false
        | .ok _ =>
          if r.remaining > 0 then
            { st with running := some { r with remaining := r.remaining - 1 },
                      output := st.output ++ [.media r.entry.id] }
          else
            finishEntry { st with output := st.output ++ [.mark r.entry.id] }
              r.entry.id true
  | .clear =>
    { st with queue := [],
              running := st.running.map (fun r => { r with aborted := true }),
              output := st.output ++ [.clear] }

/-- Run a sequence of events. -/
def ttsRun (st : TtsState) : List TtsEv → TtsState
  | [] => st
  | e :: es => ttsRun (ttsStep st e) es

/-- Enqueue ordinals of a list of entries. -/
def idsOf (l : List TtsEntry) : List Nat := l.map TtsEntry.id

/-- All operation ids known to the state, in lifecycle order: settled ones,
then the in-flight one, then the pending queue. -/
def allIds (st : TtsState) : List Nat :=
  st.settled.map Prod.fst
    ++ (match st.running with | some r => [r.entry.id] | none => [])
    ++ idsOf st.queue

/-- Reachable-state invariant of the queue model. -/
structure TtsInv (st : TtsState) : Prop where
  ids_sorted : List.Pairwise (· < ·) (allIds st)
  ids_lt_next : ∀ i ∈ allIds st, i < st.nextId
  playing_iff : st.playing = st.running.isSome
  queue_empty : st.running = none → st.queue = []

/-- Operation `i` is gone from the state: dropped entries stay unsettled
forever because nothing references them any more. -/
def DeadId (i : Nat) (st : TtsState) : Prop :=
  (∀ e ∈ st.queue, e.id ≠ i)
    ∧ (∀ r, st.running = some r → r.entry.id ≠ i)
    ∧ (∀ p ∈ st.settled, p.1 ≠ i)
    ∧ i < st.nextId

/-- Operation `i` can only ever settle by resolving: it is not pending, and
if it is in flight its controller is aborted. -/
def AbortSafe (i : Nat) (st : TtsState) : Prop :=
  (∀ p ∈ st.settled, p.1 = i → p.2 = true)
    ∧ (∀ e ∈ st.queue, e.id ≠ i)
    ∧ (∀ r, st.running = some r → r.entry.id = i → r.aborted = true)
    ∧ i < st.nextId

/-- No operation enqueued before ordinal `n` can still emit frames: the
pending queue holds only ordinals `≥ n` and any older in-flight operation
is aborted. -/
def NoOldLive (n : Nat) (st : TtsState) : Prop :=
  (∀ e ∈ st.queue, n ≤ e.id)
    ∧ (∀ r, st.running = some r → r.aborted = false → n ≤ r.entry.id)
    ∧ n ≤ st.nextId

/-- A frame attributable only to operations of ordinal `≥ n` (or a clear). -/
def FrameOk (n : Nat) : Frame → Prop
  | .media i => n ≤ i
  | .mark i => n ≤ i
  | .clear => True

/-! ## Theorems -/

/-- C7: `mapEndReason` performs lowercased substring matching in the source
order (busy, no-answer, voicemail, timeout, hangup-user/user,
hangup-bot/bot, error/fail, default completed — this order is the embedded
definition itself); in particular mapping each canonical terminal-state
name yields that same canonical state. -/
theorem mapEndReason_roundtrip :
    ∀ r : EndReason, mapEndReason (some (endReasonStr r)) = r := by
  intro r
  cases r <;> decide

/-- C5: `isValidStreamToken` returns true iff a secret is stored for the
call key and the supplied token equals it; equal-length mismatches and
unequal-length tokens both return false; on a length mismatch the
comparison still runs once on a dummy value.  The hypothesis that stored
secrets are non-empty holds for every value the provider stores
(`getStreamAuthToken` only stores 22-character base64url strings). -/
theorem isValidStreamToken_correct (store : List (String × String)) (callKey : String)
    (token : Option String)
    (hne : ∀ e, lookupKey store callKey = some e → e ≠ "") :
    ((isValidStreamToken store callKey token).1 = true ↔
      ∃ e, lookupKey store callKey = some e ∧ token = some e)
    ∧ (∀ e t, lookupKey store callKey = some e → token = some t →
        e.length = t.length → t ≠ e →
        (isValidStreamToken store callKey token).1 = false)
    ∧ (∀ e t, lookupKey store callKey = some e → token = some t → t ≠ "" →
        e.length ≠ t.length → isValidStreamToken store callKey token = (false, 1)) := by
  cases h : lookupKey store callKey with
  | none =>
    have key : isValidStreamToken store callKey token = (false, 0) := by
      unfold isValidStreamToken
      rw [h]
    refine ⟨?_, ?_, ?_⟩
    · rw [key]
      simp
    · intro e' t' he' _ _ _
      cases he'
    · intro e' t' he' _ _ _
      cases he'
  | some e =>
    have he : e ≠ "" := hne e h
    cases token with
    | none =>
      have key : isValidStreamToken store callKey none = (false, 0) := by
        unfold isValidStreamToken
        rw [h]
      refine ⟨?_, ?_, ?_⟩
      · rw [key]
        simp
      · intro e' t' _ ht' _ _
        cases ht'
      · intro e' t' _ ht' _ _
        cases ht'
    | some t =>
      have key : isValidStreamToken store callKey (some t) =
          if e = "" ∨ t = "" then (false, 0)
          else if e.length ≠ t.length then (false, 1)
          else (e == t, 1) := by
        unfold isValidStreamToken
        rw [h]
      refine ⟨?_, ?_, ?_⟩
      · rw [key]
        by_cases h1 : e = "" ∨ t = ""
        · rw [if_pos h1]
          constructor
          · intro hb
            exact absurd hb (by decide)
          · rintro ⟨e', he', ht'⟩
            injection he' with q1
            injection ht' with q2
            subst q1
            rcases h1 with h1 | h1
            · exact absurd h1 he
            · rw [h1] at q2
              exact absurd q2.symm he
        · rw [if_neg h1]
          have ht : t ≠ "" := fun hc => h1 (Or.inr hc)
          by_cases h2 : e.length ≠ t.length
          · rw [if_pos h2]
            constructor
            · intro hb
              exact absurd hb (by decide)
            · rintro ⟨e', he', ht'⟩
              injection he' with q1
              injection ht' with q2
              subst q1
              rw [q2] at h2
              exact absurd rfl h2
          · rw [if_neg h2]
            constructor
            · intro hb
              have heq : e = t := by
                have := hb
                simp only [beq_iff_eq] at this
                exact this
              exact ⟨e, rfl, by rw [heq]⟩
            · rintro ⟨e', he', ht'⟩
              injection he' with q1
              injection ht' with q2
              subst q1
              rw [← q2]
              simp
      · intro e' t' he' ht' hlen hneq
        injection he' with q1
        injection ht' with q2
        subst q1
        rw [← q2] at hlen hneq
        rw [key]
        have ht : t ≠ "" := by
          intro hc
          apply he
          rw [hc] at hlen
          have hd : e.data = [] := List.length_eq_zero.mp hlen
          exact String.ext hd
        rw [if_neg (by tauto), if_neg (by omega)]
        simp [beq_iff_eq]
        exact fun hc => hneq hc.symm
      · intro e' t' he' ht' ht2 hlen
        injection he' with q1
        injection ht' with q2
        subst q1
        rw [← q2] at ht2 hlen
        rw [key]
        rw [if_neg (by tauto), if_pos hlen]

/-- Witness for C5 at a concrete store: a matching token validates, an
equal-length mismatch fails, and a short token fails with the dummy
comparison performed. -/
theorem isValidStreamToken_correct_witness :
    (isValidStreamToken [("call-1", "sek")] "call-1" (some "sek")).1 = true
    ∧ (isValidStreamToken [("call-1", "sek")] "call-1" (some "xek")).1 = false
    ∧ isValidStreamToken [("call-1", "sek")] "call-1" (some "sk") = (false, 1) := by
  have hne : ∀ e, lookupKey [("call-1", "sek")] "call-1" = some e → e ≠ "" := by
    intro e h
    rw [show lookupKey [("call-1", "sek")] "call-1" = some "sek" from rfl] at h
    cases h
    decide
  refine ⟨?_, ?_, ?_⟩
  · exact (isValidStreamToken_correct [("call-1", "sek")] "call-1" (some "sek") hne).1.mpr
      ⟨"sek", rfl, rfl⟩
  · exact (isValidStreamToken_correct [("call-1", "sek")] "call-1" (some "xek") hne).2.1
      "sek" "xek" rfl rfl (by decide) (by decide)
  · exact (isValidStreamToken_correct [("call-1", "sek")] "call-1" (some "sk") hne).2.2
      "sek" "sk" rfl rfl (by decide) (by decide)

/-- C2: under service-account mode `getManagementJwt` generates a fresh
RS256 JWT with `iat = now`, `exp = now + 3600`, `kid = keyId`,
`iss = accountId` and caches it; two calls separated by less than
`3600 - refreshSkewSec` seconds return the same token; a 401 on a
management API request triggers regeneration and exactly one retry. -/
theorem managementJwt_correct (sa : ServiceAccount) (skew : Int) (stJwt : Option String)
    (t0 t1 now2 : Int) (status1 : Nat)
    (_hle : t0 ≤ t1) (hwin : t1 - t0 < 3600 - skew) :
    getManagementJwt ⟨some sa, stJwt, skew, none⟩ false t0 =
      .ok (.signed ⟨sa.keyId, sa.accountId, t0, t0 + 3600⟩,
        ⟨some sa, stJwt, skew, some (generateManagementJwt sa t0)⟩)
    ∧ (∀ tok1 st1, getManagementJwt ⟨some sa, stJwt, skew, none⟩ false t0 = .ok (tok1, st1) →
        getManagementJwt st1 false t1 = .ok (tok1, st1))
    ∧ (status1 = 401 →
        managementApiRequest ⟨some sa, stJwt, skew, none⟩ t0 now2 status1 =
          .ok ([.signed ⟨sa.keyId, sa.accountId, t0, t0 + 3600⟩,
                .signed ⟨sa.keyId, sa.accountId, now2, now2 + 3600⟩],
            ⟨some sa, stJwt, skew, some (generateManagementJwt sa now2)⟩))
    ∧ (status1 ≠ 401 →
        managementApiRequest ⟨some sa, stJwt, skew, none⟩ t0 now2 status1 =
          .ok ([.signed ⟨sa.keyId, sa.accountId, t0, t0 + 3600⟩],
            ⟨some sa, stJwt, skew, some (generateManagementJwt sa t0)⟩)) := by
  have hfirst : getManagementJwt ⟨some sa, stJwt, skew, none⟩ false t0 =
      .ok (.signed ⟨sa.keyId, sa.accountId, t0, t0 + 3600⟩,
        ⟨some sa, stJwt, skew, some (generateManagementJwt sa t0)⟩) := rfl
  have hcachedhit : ∀ st1 : VoxAuthState,
      st1 = ⟨some sa, stJwt, skew, some (generateManagementJwt sa t0)⟩ →
      getManagementJwt st1 false t1 =
        .ok (.signed ⟨sa.keyId, sa.accountId, t0, t0 + 3600⟩, st1) := by
    intro st1 hst
    subst hst
    unfold getManagementJwt
    simp only [generateManagementJwt]
    have hc : (t0 + 3600 - skew > t1) := by omega
    simp [hc]
  refine ⟨hfirst, ?_, ?_, ?_⟩
  · intro tok1 st1 hok
    rw [hfirst] at hok
    injection hok with hp
    have htok : tok1 = .signed ⟨sa.keyId, sa.accountId, t0, t0 + 3600⟩ :=
      (congrArg Prod.fst hp).symm
    have hst : st1 = ⟨some sa, stJwt, skew, some (generateManagementJwt sa t0)⟩ :=
      (congrArg Prod.snd hp).symm
    rw [htok]
    exact hcachedhit st1 hst
  · intro h401
    subst h401
    unfold managementApiRequest
    rw [hfirst]
    simp only [Option.isSome]
    rfl
  · intro hnot
    unfold managementApiRequest
    rw [hfirst]
    have : (status1 == 401) = false := by
      simp [hnot]
    rw [this]
    simp

/-- Witness for C2 at concrete credentials and times. -/
theorem managementJwt_correct_witness :
    getManagementJwt ⟨some ⟨"acc-7", "key-3", "pem"⟩, none, 60, none⟩ false 1000 =
      .ok (.signed ⟨"key-3", "acc-7", 1000, 4600⟩,
        ⟨some ⟨"acc-7", "key-3", "pem"⟩, none, 60, some ⟨⟨"key-3", "acc-7", 1000, 4600⟩, 4600⟩⟩)
    ∧ managementApiRequest ⟨some ⟨"acc-7", "key-3", "pem"⟩, none, 60, none⟩ 1000 1200 401 =
      .ok ([.signed ⟨"key-3", "acc-7", 1000, 4600⟩, .signed ⟨"key-3", "acc-7", 1200, 4800⟩],
        ⟨some ⟨"acc-7", "key-3", "pem"⟩, none, 60, some ⟨⟨"key-3", "acc-7", 1200, 4800⟩, 4800⟩⟩) := by
  have h := managementJwt_correct ⟨"acc-7", "key-3", "pem"⟩ 60 none 1000 2000 1200 401
    (by decide) (by decide)
  exact ⟨h.1, h.2.2.1 rfl⟩

/-- C9: on an unexpected WebSocket close in conversation mode the session
only marks itself closed (`connected := false`, `closed := true`), attempts
no reconnect, and delivers no close notification to any consumer: the
`onCloseCallback` hook it invokes is never declared or settable on the
session, so the optional call is a no-op and the owner is not notified. -/
theorem conversationClose_silent (s : RtSessionState)
    (hmode : s.mode = .conversation) (hopen : s.closed = false) :
    closeEvent s = ({ s with connected := false, closed := true }, none, []) := by
  unfold closeEvent handleWsClose
  simp [hopen, hmode, onCloseCallback]

/-- Witness for C9 at a concrete connected conversation session. -/
theorem conversationClose_silent_witness :
    closeEvent ⟨.conversation, true, false, 0⟩ =
      (⟨.conversation, false, true, 0⟩, none, []) := by
  exact conversationClose_silent ⟨.conversation, true, false, 0⟩ rfl rfl

/-- A session that is already closed never reconnects and collects no
backoff delays. -/
theorem closeStreak_closed (n : Nat) (s : RtSessionState) (h : s.closed = true) :
    (closeStreak s n).2 = [] := by
  induction n generalizing s with
  | zero => rfl
  | succ m ih =>
    show (closeStreak s (m + 1)).2 = []
    have hev : closeEvent s = ({ s with connected := false }, none, []) := by
      unfold closeEvent handleWsClose
      simp [h]
    unfold closeStreak
    rw [hev]
    simpa using ih { s with connected := false } h

/-- In transcription mode, a streak of failed reconnects from attempt
counter `a` produces backoff delays `1000 * 2 ^ i` for
`i = a, …, min (a + n) 5 - 1`. -/
theorem closeStreak_transcription (n : Nat) : ∀ (a : Nat) (s : RtSessionState),
    s.mode = .transcription → s.closed = false → s.reconnectAttempts = a →
    (closeStreak s n).2 = (List.range' a (min n (5 - a))).map (fun i => 1000 * 2 ^ i) := by
  induction n with
  | zero =>
    intro a s _ _ _
    simp [closeStreak]
  | succ m ih =>
    intro a s hmode hopen ha
    have hhc : handleWsClose s = ({ s with connected := false }, true, []) := by
      unfold handleWsClose
      simp [hopen, hmode]
    by_cases h5 : a ≥ 5
    · have hev : closeEvent s = ({ s with connected := false }, none, []) := by
        unfold closeEvent
        rw [hhc]
        simp [attemptReconnect, hopen, ha, h5]
      show (closeStreak s (m + 1)).2 = _
      unfold closeStreak
      rw [hev]
      have := ih a { s with connected := false } hmode hopen ha
      simp only [this]
      have h0 : 5 - a = 0 := by omega
      simp [h0]
    · have hlt : a < 5 := by omega
      have hev : closeEvent s =
          ({ s with connected := false, reconnectAttempts := a + 1 },
            some (1000 * 2 ^ a), []) := by
        unfold closeEvent
        rw [hhc]
        simp [attemptReconnect, hopen, ha, h5]
      show (closeStreak s (m + 1)).2 = _
      unfold closeStreak
      rw [hev]
      have := ih (a + 1) { s with connected := false, reconnectAttempts := a + 1 }
        hmode hopen rfl
      simp only [this]
      have hsplit : min (m + 1) (5 - a) = min m (5 - (a + 1)) + 1 := by omega
      rw [hsplit, List.range'_succ]
      simp

/-- C4: after an unexpected WebSocket close, a conversation-mode session
never attempts to reconnect, while a transcription-mode session reconnects
with exponential backoff (`1000 * 2 ^ i` ms) for at most 5 attempts. -/
theorem reconnect_policy (s : RtSessionState) (n : Nat)
    (hopen : s.closed = false) (ha : s.reconnectAttempts = 0) :
    (s.mode = .conversation → (closeStreak s n).2 = [])
    ∧ (s.mode = .transcription →
        (closeStreak s n).2 = (List.range (min n 5)).map (fun i => 1000 * 2 ^ i)) := by
  constructor
  · intro hmode
    cases n with
    | zero => rfl
    | succ m =>
      have hev : closeEvent s = ({ s with connected := false, closed := true }, none, []) := by
        unfold closeEvent handleWsClose
        simp [hopen, hmode, onCloseCallback]
      show (closeStreak s (m + 1)).2 = []
      unfold closeStreak
      rw [hev]
      simpa using closeStreak_closed m { s with connected := false, closed := true } rfl
  · intro hmode
    have := closeStreak_transcription n 0 s hmode hopen ha
    simpa [List.range_eq_range'] using this

/-- Witness for C4: seven consecutive closes yield exactly five reconnect
attempts in transcription mode (delays 1 s, 2 s, 4 s, 8 s, 16 s) and none
in conversation mode. -/
theorem reconnect_policy_witness :
    (closeStreak ⟨.transcription, true, false, 0⟩ 7).2 = [1000, 2000, 4000, 8000, 16000]
    ∧ (closeStreak ⟨.conversation, true, false, 0⟩ 7).2 = [] := by
  constructor
  · have h := (reconnect_policy ⟨.transcription, true, false, 0⟩ 7 rfl rfl).2 rfl
    rw [h]
    decide
  · exact (reconnect_policy ⟨.conversation, true, false, 0⟩ 7 rfl rfl).1 rfl

/-- Emissions of an event sequence split across concatenation. -/
theorem runRtEvents_append (mode : RealtimeMode) (p : String) (l1 l2 : List RtEvent) :
    runRtEvents mode p (l1 ++ l2) =
      ((runRtEvents mode (runRtEvents mode p l1).1 l2).1,
        (runRtEvents mode p l1).2 ++ (runRtEvents mode (runRtEvents mode p l1).1 l2).2) := by
  induction l1 generalizing p with
  | nil => simp [runRtEvents]
  | cons e es ih =>
    show runRtEvents mode p (e :: (es ++ l2)) = _
    simp only [runRtEvents]
    simp only [ih]
    simp [runRtEvents]

/-- The emission counter `countFinal` is additive. -/
theorem countFinal_append (a b : List RtEmit) :
    countFinal (a ++ b) = countFinal a + countFinal b := by
  simp [countFinal, List.filter_append]

/-- Assistant delta events emit partials only, never a final. -/
theorem deltas_no_final (ds : List String) (p : String) :
    countFinal (runRtEvents .conversation p (ds.map RtEvent.assistantDelta)).2 = 0 := by
  induction ds generalizing p with
  | nil => rfl
  | cons d ds ih =>
    show countFinal (runRtEvents .conversation p
      (RtEvent.assistantDelta d :: ds.map RtEvent.assistantDelta)).2 = 0
    by_cases hd : d = ""
    · have heq : (runRtEvents .conversation p
          (RtEvent.assistantDelta d :: ds.map RtEvent.assistantDelta)).2 =
          (runRtEvents .conversation p (ds.map RtEvent.assistantDelta)).2 := by
        simp [runRtEvents, handleRtEvent, hd]
      rw [heq]
      exact ih p
    · have heq : (runRtEvents .conversation p
          (RtEvent.assistantDelta d :: ds.map RtEvent.assistantDelta)).2 =
          RtEmit.assistantPartial (p ++ d) ::
            (runRtEvents .conversation (p ++ d) (ds.map RtEvent.assistantDelta)).2 := by
        simp [runRtEvents, handleRtEvent, hd]
      rw [heq]
      have h2 := ih (p ++ d)
      simp [countFinal] at h2 ⊢
      exact h2

/-- C8: in conversation mode the assistant-final callback fires exactly
once per turn: partial deltas followed by the transcript-done (or
output-text-done) event with a non-empty transcript emit exactly one
assistant-final, and the trailing `response.output_item.done` emits
nothing for any state. -/
theorem assistantFinal_once (pending : String) (ds : List String) (tr : String)
    (tx : Option String) (htr : tr ≠ "") :
    countFinal (runRtEvents .conversation pending
      (ds.map RtEvent.assistantDelta ++
        [RtEvent.assistantDone (some tr) tx, RtEvent.outputItemDone])).2 = 1
    ∧ (∀ (mode : RealtimeMode) (p : String),
        handleRtEvent mode p .outputItemDone = (p, [])) := by
  constructor
  · rw [runRtEvents_append, countFinal_append, deltas_no_final]
    simp [runRtEvents, handleRtEvent, jsOrStr, htr, countFinal]
  · intro mode p
    rfl

/-- Witness for C8: a concrete turn (two deltas, a done event, an
item-done event) emits exactly one assistant final. -/
theorem assistantFinal_once_witness :
    countFinal (runRtEvents .conversation ""
      (["Da", "-da"].map RtEvent.assistantDelta ++
        [RtEvent.assistantDone (some "Da-da") none, RtEvent.outputItemDone])).2 = 1 := by
  exact (assistantFinal_once "" ["Da", "-da"] "Da-da" none (by decide)).1

/-- C10: a hook request whose URL query string carries a `token` parameter
is answered 400 before any authentication: the failure map is untouched,
the token comparison never runs, and the request never proceeds to
dispatch — even when valid header credentials are supplied
(`tokenOk = true`). -/
theorem hookQueryToken_rejected (tokenOk : Bool) (clientKey : String) (nowMs : Int)
    (m : HookMap) :
    hooksAuthPhase true tokenOk clientKey nowMs m = (.badRequestQueryToken, m, false)
    ∧ (hooksAuthPhase true tokenOk clientKey nowMs m).1 ≠ .proceed := by
  refine ⟨rfl, ?_⟩
  simp [hooksAuthPhase]

/-- Erasing a key removes its entry. -/
theorem lookupFailure_erase (m : HookMap) (k : String) :
    lookupFailure (eraseKey m k) k = none := by
  have hfind : List.find? (fun p => p.1 == k) (eraseKey m k) = none := by
    rw [List.find?_eq_none]
    intro x hx
    simp only [eraseKey, List.mem_filter] at hx
    intro hcontra
    rw [hcontra] at hx
    simp at hx
  simp [lookupFailure, hfind]

/-- Erasing an absent key is the identity. -/
theorem eraseKey_of_absent (m : HookMap) (k : String) (h : lookupFailure m k = none) :
    eraseKey m k = m := by
  have hfind : List.find? (fun p => p.1 == k) m = none := by
    simp only [lookupFailure, Option.map_eq_none'] at h
    exact h
  have hall := List.find?_eq_none.mp hfind
  apply List.filter_eq_self.mpr
  intro x hx
  simpa using hall x hx

/-- Erasing a present key strictly shrinks the map. -/
theorem eraseKey_length_lt (m : HookMap) (k : String) (c : HookAuthFailure)
    (h : lookupFailure m k = some c) : (eraseKey m k).length < m.length := by
  simp only [lookupFailure, Option.map_eq_some'] at h
  obtain ⟨q, hq, _⟩ := h
  have hmem : q ∈ m := List.mem_of_find?_eq_some hq
  have hpred := List.find?_some hq
  apply List.length_filter_lt_length_iff_exists.mpr
  exact ⟨q, hmem, by simp [hpred]⟩

/-- Applying `ceilSec` to a positive duration gives at least one second. -/
theorem ceilSec_pos (ms : Int) (h : 1 ≤ ms) : 1 ≤ ceilSec ms := by
  unfold ceilSec
  have h1 : (1000 : Int) ≤ ms + 999 := by omega
  have h2 : (1000 : Int) / 1000 ≤ (ms + 999) / 1000 :=
    Int.ediv_le_ediv (by norm_num) h1
  omega

/-- An in-window failure for a tracked key skips eviction and produces the
incremented entry appended in fresh insertion order. -/
theorem recordHookAuthFailure_inWindow (m : HookMap) (key : String) (now : Int)
    (c : HookAuthFailure) (h : lookupFailure m key = some c)
    (hw : now - c.windowStartedAtMs < 60000) :
    recordHookAuthFailure m key now =
      (if c.count + 1 ≤ 20 then (false, none)
        else (true, some (ceilSec (max 1 (c.windowStartedAtMs + 60000 - now)))),
        eraseKey m key ++ [(key, ⟨c.count + 1, c.windowStartedAtMs⟩)]) := by
  have he : hookEvict m key now = m := by
    unfold hookEvict
    simp [h]
  have hn : hookNext m key now = ⟨c.count + 1, c.windowStartedAtMs⟩ := by
    unfold hookNext
    simp only [h]
    rw [if_neg (show ¬(now - c.windowStartedAtMs ≥ 60000) by omega)]
  unfold recordHookAuthFailure
  simp only [he, hn]
  by_cases hc : c.count + 1 ≤ 20 <;> simp [hc]

/-- After `n + 1` same-window failures from an empty map the key holds the
counter `n + 1`. -/
theorem recordTrace_state (key : String) (now : Int) :
    ∀ n : Nat, (recordTrace key now (n + 1)).2 = [(key, ⟨n + 1, now⟩)] := by
  intro n
  induction n with
  | zero =>
    show (recordHookAuthFailure [] key now).2 = _
    unfold recordHookAuthFailure hookEvict hookNext
    simp [lookupFailure, eraseKey]
  | succ k ih =>
    show (recordHookAuthFailure (recordTrace key now (k + 1)).2 key now).2 = _
    rw [ih]
    have h : lookupFailure [(key, ⟨k + 1, now⟩)] key = some ⟨k + 1, now⟩ := by
      simp [lookupFailure]
    rw [recordHookAuthFailure_inWindow _ _ _ _ h (by show now - now < 60000; omega)]
    simp [eraseKey]

/-- Response of the `n`-th same-window failure from an empty map. -/
theorem recordTrace_resp (key : String) (now : Int) (n : Nat) (h1 : 1 ≤ n) :
    (recordTrace key now n).1 = if n ≤ 20 then (false, none) else (true, some 60) := by
  obtain ⟨k, rfl⟩ : ∃ k, n = k + 1 := ⟨n - 1, by omega⟩
  cases k with
  | zero =>
    show (recordHookAuthFailure [] key now).1 = _
    unfold recordHookAuthFailure hookEvict hookNext
    simp [lookupFailure, eraseKey]
  | succ k =>
    show (recordHookAuthFailure (recordTrace key now (k + 1)).2 key now).1 = _
    rw [recordTrace_state key now k]
    have h : lookupFailure [(key, ⟨k + 1, now⟩)] key = some ⟨k + 1, now⟩ := by
      simp [lookupFailure]
    rw [recordHookAuthFailure_inWindow _ _ _ _ h (by show now - now < 60000; omega)]
    have hms : now + 60000 - now = (60000 : Int) := by omega
    by_cases hc : k + 1 + 1 ≤ 20
    · simp [hc]
    · simp only [if_neg hc]
      rw [hms]
      decide

/-- The eviction prologue leaves at most 2047 keys when the client key is
new and the map was full. -/
theorem hookEvict_length (m : HookMap) (key : String) (now : Int)
    (hlen : m.length ≤ 2048) : (hookEvict m key now).length ≤ 2048
      ∧ ((lookupFailure m key).isNone = true → (hookEvict m key now).length ≤ 2047) := by
  unfold hookEvict
  by_cases hk : (lookupFailure m key).isNone
  · by_cases hbig : m.length ≥ 2048
    · have hcond : ((lookupFailure m key).isNone && decide (m.length ≥ 2048)) = true := by
        simp [hk, hbig]
      rw [if_pos hcond]
      have hple : (m.filter
          (fun p => decide (now - p.2.windowStartedAtMs < 60000))).length ≤ m.length :=
        List.length_filter_le _ _
      by_cases hp2 : (m.filter
          (fun p => decide (now - p.2.windowStartedAtMs < 60000))).length ≥ 2048
      · rw [if_pos hp2]
        rw [List.length_drop]
        exact ⟨by omega, fun _ => by omega⟩
      · rw [if_neg hp2]
        exact ⟨by omega, fun _ => by omega⟩
    · have hcond : ((lookupFailure m key).isNone && decide (m.length ≥ 2048)) = false := by
        simp [hbig]
      rw [if_neg (by simp [hcond])]
      exact ⟨by omega, fun _ => by omega⟩
  · have hcond : ((lookupFailure m key).isNone && decide (m.length ≥ 2048)) = false := by
      simp [Bool.eq_false_iff.mpr hk]
    rw [if_neg (by simp [hcond])]
    refine ⟨hlen, ?_⟩
    intro hk2
    exact absurd hk2 hk

/-- The map after `recordHookAuthFailure` never tracks more than 2048 client keys. -/
theorem recordHookAuthFailure_length (m : HookMap) (key : String) (now : Int)
    (hlen : m.length ≤ 2048) : (recordHookAuthFailure m key now).2.length ≤ 2048 := by
  have hsnd : (recordHookAuthFailure m key now).2 =
      eraseKey (hookEvict m key now) key ++ [(key, hookNext (hookEvict m key now) key now)] := by
    unfold recordHookAuthFailure
    by_cases hc : (hookNext (hookEvict m key now) key now).count ≤ 20 <;> simp [hc]
  rw [hsnd]
  rw [List.length_append]
  have hev := hookEvict_length m key now hlen
  by_cases hk : (lookupFailure m key).isNone
  · have h1 : (hookEvict m key now).length ≤ 2047 := hev.2 hk
    have h2 : (eraseKey (hookEvict m key now) key).length ≤ (hookEvict m key now).length :=
      List.length_filter_le _ _
    simp
    omega
  · -- the key stays tracked: the map is unchanged by eviction and the
    -- erase strictly shrinks it
    have hsome : ∃ c, lookupFailure m key = some c := by
      cases hx : lookupFailure m key with
      | none => rw [hx] at hk; exact absurd rfl hk
      | some c => exact ⟨c, rfl⟩
    obtain ⟨c, hc⟩ := hsome
    have he : hookEvict m key now = m := by
      unfold hookEvict
      simp [hc]
    rw [he]
    have h2 : (eraseKey m key).length < m.length := eraseKey_length_lt m key c hc
    simp
    omega

/-- C6: the hook endpoint counts auth failures per client key in a fixed
60-second window; the 21st failure in a window receives HTTP 429 with
`Retry-After` of at least one second (here exactly 60 s); at most 2048
keys are ever tracked; successful authentication clears the counter for
that client key. -/
theorem hookRateLimit_correct (m : HookMap) (key : String) (now : Int) (c : HookAuthFailure)
    (hlen : m.length ≤ 2048) :
    (lookupFailure m key = some c → now - c.windowStartedAtMs < 60000 →
      (recordHookAuthFailure m key now).2 =
        eraseKey m key ++ [(key, ⟨c.count + 1, c.windowStartedAtMs⟩)]
      ∧ ((recordHookAuthFailure m key now).1.1 = true ↔ 20 < c.count + 1)
      ∧ (∀ r, (recordHookAuthFailure m key now).1.2 = some r → 1 ≤ r))
    ∧ (∀ n, 1 ≤ n → n ≤ 20 → (recordTrace key now n).1 = (false, none))
    ∧ (recordTrace key now 21).1 = (true, some 60)
    ∧ (recordHookAuthFailure m key now).2.length ≤ 2048
    ∧ hooksAuthPhase false true key now m = (.proceed, eraseKey m key, true)
    ∧ lookupFailure (eraseKey m key) key = none := by
  refine ⟨?_, ?_, ?_, recordHookAuthFailure_length m key now hlen, rfl,
    lookupFailure_erase m key⟩
  · intro h hw
    rw [recordHookAuthFailure_inWindow m key now c h hw]
    refine ⟨by by_cases hc : c.count + 1 ≤ 20 <;> simp [hc], ?_, ?_⟩
    · by_cases hc : c.count + 1 ≤ 20
      · simp [hc]
        try omega
      · simp [hc]
        try omega
    · intro r hr
      by_cases hc : c.count + 1 ≤ 20
      · simp [hc] at hr
      · simp [hc] at hr
        rw [← hr]
        exact ceilSec_pos _ (le_max_left _ _)
  · intro n h1 h20
    rw [recordTrace_resp key now n h1]
    simp [h20]
  · rw [recordTrace_resp key now 21 (by omega)]
    simp

/-- Witness for C6: twenty-one same-window failures from an empty map
throttle the 21st with `Retry-After = 60`; a full map stays within 2048
keys after a failure; a successful authentication erases the counter. -/
theorem hookRateLimit_correct_witness :
    (recordTrace "ip-9" 7 20).1 = (false, none)
    ∧ (recordTrace "ip-9" 7 21).1 = (true, some 60)
    ∧ (recordHookAuthFailure [("ip-9", ⟨20, 0⟩)] "ip-9" 100).2 =
        [("ip-9", ⟨21, 0⟩)]
    ∧ (recordHookAuthFailure [("ip-9", ⟨20, 0⟩)] "ip-9" 100).2.length ≤ 2048
    ∧ hooksAuthPhase false true "ip-9" 100 [("ip-9", ⟨20, 0⟩)] = (.proceed, [], true) := by
  have h7 := hookRateLimit_correct [] "ip-9" 7 ⟨20, 0⟩ (by decide)
  have h := hookRateLimit_correct [("ip-9", ⟨20, 0⟩)] "ip-9" 100 ⟨20, 0⟩ (by decide)
  have ha := h.1 (by simp [lookupFailure]) (by decide)
  refine ⟨h7.2.1 20 (by decide) (by decide), h7.2.2.1, ?_, h.2.2.2.1, ?_⟩
  · rw [ha.1]
    decide
  · rw [h.2.2.2.2.1]
    decide

/-- The initial queue state satisfies the invariant. -/
theorem ttsInv_init : TtsInv initTts := by
  refine ⟨?_, ?_, ?_, ?_⟩ <;> simp [initTts, allIds, idsOf]

/-- Appending a strict upper bound preserves strict sortedness. -/
theorem pairwise_append_singleton {l : List Nat} {x : Nat}
    (hp : List.Pairwise (· < ·) l) (hlt : ∀ i ∈ l, i < x) :
    List.Pairwise (· < ·) (l ++ [x]) := by
  rw [List.pairwise_append]
  refine ⟨hp, List.pairwise_singleton _ _, ?_⟩
  intro a ha b hb
  simp only [List.mem_singleton] at hb
  subst hb
  exact hlt a ha

/-- The invariant ignores the output trace. -/
theorem ttsInv_output (st : TtsState) (o : List Frame) (h : TtsInv st) :
    TtsInv { st with output := o } :=
  ⟨h.ids_sorted, h.ids_lt_next, h.playing_iff, h.queue_empty⟩

/-- Settling the in-flight operation preserves the invariant. -/
theorem ttsInv_finish (st : TtsState) (r : RunningTts) (hr : st.running = some r)
    (hinv : TtsInv st) (b : Bool) : TtsInv (finishEntry st r.entry.id b) := by
  obtain ⟨hs, hn, hp, hq⟩ := hinv
  cases hqe : st.queue with
  | nil =>
    have hfin : finishEntry st r.entry.id b =
        { st with settled := st.settled ++ [(r.entry.id, b)], running := none, playing := false } := by
      unfold finishEntry
      simp [hqe]
    rw [hfin]
    have hall : allIds { st with settled := st.settled ++ [(r.entry.id, b)], running := none, playing := false } = allIds st := by
      simp [allIds, idsOf, hr, hqe]
    refine ⟨?_, ?_, ?_, ?_⟩
    · rw [hall]
      exact hs
    · rw [hall]
      exact hn
    · rfl
    · intro
      simp [hqe]
  | cons e rest =>
    have hfin : finishEntry st r.entry.id b =
        { st with settled := st.settled ++ [(r.entry.id, b)], queue := rest, running := some (startEntry e) } := by
      unfold finishEntry
      simp [hqe]
    rw [hfin]
    have hall : allIds { st with settled := st.settled ++ [(r.entry.id, b)], queue := rest, running := some (startEntry e) } = allIds st := by
      simp [allIds, idsOf, hr, hqe, startEntry]
    refine ⟨?_, ?_, ?_, ?_⟩
    · rw [hall]
      exact hs
    · rw [hall]
      exact hn
    · show st.playing = true
      rw [hp, hr]
      rfl
    · intro habs
      exact absurd habs (by simp)

/-- Every queue transition preserves the invariant. -/
theorem ttsInv_step (st : TtsState) (hinv : TtsInv st) (e : TtsEv) :
    TtsInv (ttsStep st e) := by
  obtain ⟨hs, hn, hp, hq⟩ := hinv
  cases e with
  | enqueue s =>
    by_cases hpl : st.playing
    · have hrs : st.running.isSome = true := by rw [← hp]; exact hpl
      have hstep : ttsStep st (.enqueue s) =
          { st with nextId := st.nextId + 1, queue := st.queue ++ [⟨st.nextId, s⟩] } := by
        simp [ttsStep, hpl]
      rw [hstep]
      have hall : allIds { st with nextId := st.nextId + 1, queue := st.queue ++ [⟨st.nextId, s⟩] } = allIds st ++ [st.nextId] := by
        simp [allIds, idsOf]
      refine ⟨?_, ?_, hp, ?_⟩
      · rw [hall]
        exact pairwise_append_singleton hs hn
      · rw [hall]
        intro i hi
        simp only [List.mem_append, List.mem_singleton] at hi
        show i < st.nextId + 1
        rcases hi with hi | hi
        · have := hn i hi
          omega
        · omega
      · intro hnone
        rw [hnone] at hrs
        simp at hrs
    · have hrn : st.running = none := by
        cases hrr : st.running with
        | none => rfl
        | some r => rw [hp, hrr] at hpl; simp at hpl
      have hq0 : st.queue = [] := hq hrn
      have hstep : ttsStep st (.enqueue s) =
          { st with nextId := st.nextId + 1, playing := true, running := some (startEntry ⟨st.nextId, s⟩) } := by
        simp [ttsStep, hpl]
      rw [hstep]
      have hall : allIds { st with nextId := st.nextId + 1, playing := true, running := some (startEntry ⟨st.nextId, s⟩) } = allIds st ++ [st.nextId] := by
        simp [allIds, idsOf, hrn, hq0, startEntry]
      refine ⟨?_, ?_, rfl, ?_⟩
      · rw [hall]
        exact pairwise_append_singleton hs hn
      · rw [hall]
        intro i hi
        simp only [List.mem_append, List.mem_singleton] at hi
        show i < st.nextId + 1
        rcases hi with hi | hi
        · have := hn i hi
          omega
        · omega
      · intro habs
        exact absurd habs (by simp)
  | step =>
    cases hr : st.running with
    | none =>
      have hstep : ttsStep st .step = st := by simp [ttsStep, hr]
      rw [hstep]
      exact ⟨hs, hn, hp, hq⟩
    | some r =>
      by_cases hab : r.aborted
      · have hstep : ttsStep st .step = finishEntry st r.entry.id true := by
          simp [ttsStep, hr, hab]
        rw [hstep]
        exact ttsInv_finish st r hr ⟨hs, hn, hp, hq⟩ true
      · cases hscript : r.entry.script with
        | failing =>
          have hstep : ttsStep st .step = finishEntry st r.entry.id false := by
            simp [ttsStep, hr, hab, hscript]
          rw [hstep]
          exact ttsInv_finish st r hr ⟨hs, hn, hp, hq⟩ false
        | ok k =>
          by_cases hrem : r.remaining > 0
          · have hstep : ttsStep st .step =
                { st with running := some { r with remaining := r.remaining - 1 }, output := st.output ++ [.media r.entry.id] } := by
              simp [ttsStep, hr, hab, hscript, hrem]
            rw [hstep]
            have hall : allIds { st with running := some { r with remaining := r.remaining - 1 }, output := st.output ++ [.media r.entry.id] } = allIds st := by
              simp [allIds, hr]
            refine ⟨?_, ?_, ?_, ?_⟩
            · rw [hall]
              exact hs
            · rw [hall]
              exact hn
            · show st.playing = true
              rw [hp, hr]
              rfl
            · intro habs
              exact absurd habs (by simp)
          · have hstep : ttsStep st .step =
                finishEntry { st with output := st.output ++ [.mark r.entry.id] }
                  r.entry.id true := by
              simp [ttsStep, hr, hab, hscript, hrem]
            rw [hstep]
            exact ttsInv_finish { st with output := st.output ++ [.mark r.entry.id] }
              r hr (ttsInv_output st _ ⟨hs, hn, hp, hq⟩) true
  | clear =>
    have hall : allIds (ttsStep st .clear) =
        st.settled.map Prod.fst ++
          ((match st.running with | some r => [r.entry.id] | none => []) : List Nat) := by
      cases hr : st.running with
      | none => simp [ttsStep, allIds, idsOf, hr]
      | some r => simp [ttsStep, allIds, idsOf, hr]
    have hsplit2 : allIds st =
        (st.settled.map Prod.fst ++
          ((match st.running with | some r => [r.entry.id] | none => []) : List Nat)) ++
          idsOf st.queue := by
      simp [allIds, List.append_assoc]
    refine ⟨?_, ?_, ?_, ?_⟩
    · rw [hall]
      rw [hsplit2] at hs
      exact (List.pairwise_append.mp hs).1
    · rw [hall]
      intro i hi
      apply hn
      rw [hsplit2]
      exact List.mem_append_left _ hi
    · show st.playing = (st.running.map _).isSome
      rw [hp]
      cases st.running <;> rfl
    · intro
      rfl

/-- The invariant holds along every run from an invariant state. -/
theorem ttsInv_run (st : TtsState) (h : TtsInv st) (tr : List TtsEv) :
    TtsInv (ttsRun st tr) := by
  induction tr generalizing st with
  | nil => exact h
  | cons e es ih => exact ih (ttsStep st e) (ttsInv_step st h e)

/-- In an invariant state the settled, in-flight, and queued ordinals are
pairwise separated: settled ones are strictly below the in-flight one,
which is strictly below every queued one. -/
theorem ttsInv_separation (st : TtsState) (hinv : TtsInv st) :
    (∀ p ∈ st.settled, ∀ e ∈ st.queue, p.1 < e.id)
    ∧ (∀ r, st.running = some r → ∀ p ∈ st.settled, p.1 < r.entry.id)
    ∧ (∀ r, st.running = some r → ∀ e ∈ st.queue, r.entry.id < e.id) := by
  have hs := hinv.ids_sorted
  unfold allIds at hs
  rw [List.pairwise_append] at hs
  obtain ⟨hsr, _, hcross⟩ := hs
  rw [List.pairwise_append] at hsr
  obtain ⟨_, _, hsrun⟩ := hsr
  refine ⟨?_, ?_, ?_⟩
  · intro p hp e he
    exact hcross p.1 (List.mem_append_left _ (List.mem_map_of_mem _ hp))
      e.id (List.mem_map_of_mem _ he)
  · intro r hr p hp
    apply hsrun p.1 (List.mem_map_of_mem _ hp) r.entry.id
    rw [hr]
    simp
  · intro r hr e he
    apply hcross r.entry.id ?_ e.id (List.mem_map_of_mem _ he)
    apply List.mem_append_right
    rw [hr]
    simp

/-- C3: per stream, at most one TTS operation runs at a time (the
`ttsPlaying` flag is set exactly while one is in flight), promises settle
in enqueue order (the settled ordinals are strictly increasing, cancelled
operations excluded since they never settle), and a playback failing
without abort rejects its promise while the loop proceeds directly to the
next queued item. -/
theorem tts_serialization (tr : List TtsEv) :
    List.Pairwise (· < ·) ((ttsRun initTts tr).settled.map Prod.fst)
    ∧ (ttsRun initTts tr).playing = (ttsRun initTts tr).running.isSome
    ∧ (∀ r, (ttsRun initTts tr).running = some r → r.aborted = false →
        r.entry.script = .failing →
        (ttsStep (ttsRun initTts tr) .step).settled =
          (ttsRun initTts tr).settled ++ [(r.entry.id, false)]
        ∧ (ttsStep (ttsRun initTts tr) .step).queue = (ttsRun initTts tr).queue.drop 1
        ∧ (ttsStep (ttsRun initTts tr) .step).running =
            ((ttsRun initTts tr).queue.head?).map startEntry) := by
  have hinv := ttsInv_run initTts ttsInv_init tr
  refine ⟨?_, hinv.playing_iff, ?_⟩
  · have hs := hinv.ids_sorted
    unfold allIds at hs
    rw [List.pairwise_append] at hs
    have hsr := hs.1
    rw [List.pairwise_append] at hsr
    exact hsr.1
  · intro r hr hab hscript
    have hstep : ttsStep (ttsRun initTts tr) .step =
        finishEntry (ttsRun initTts tr) r.entry.id false := by
      simp [ttsStep, hr, hab, hscript]
    rw [hstep]
    unfold finishEntry
    cases hq : (ttsRun initTts tr).queue with
    | nil => simp [hq]
    | cons e rest => simp [hq]

/-- Witness for C3: with a failing operation in flight and one queued, a
step rejects the first promise and starts the queued operation. -/
theorem tts_serialization_witness :
    (ttsStep (ttsRun initTts [TtsEv.enqueue .failing, TtsEv.enqueue (.ok 1)]) .step).settled =
      (ttsRun initTts [TtsEv.enqueue .failing, TtsEv.enqueue (.ok 1)]).settled ++ [(0, false)]
    ∧ (ttsStep (ttsRun initTts [TtsEv.enqueue .failing, TtsEv.enqueue (.ok 1)]) .step).running =
      ((ttsRun initTts [TtsEv.enqueue .failing, TtsEv.enqueue (.ok 1)]).queue.head?).map
        startEntry := by
  have h := (tts_serialization [TtsEv.enqueue .failing, TtsEv.enqueue (.ok 1)]).2.2
    ⟨⟨0, .failing⟩, 0, false⟩ (by decide) rfl rfl
  exact ⟨h.1, h.2.2⟩

/-- Settling some other operation keeps a dead ordinal dead. -/
theorem deadId_finish (i : Nat) (st : TtsState) (id0 : Nat) (b : Bool) (hid : id0 ≠ i)
    (h : DeadId i st) : DeadId i (finishEntry st id0 b) := by
  obtain ⟨hq, hr, hs, hn⟩ := h
  cases hqe : st.queue with
  | nil =>
    have hfin : finishEntry st id0 b =
        { st with settled := st.settled ++ [(id0, b)], running := none, playing := false } := by
      unfold finishEntry
      simp [hqe]
    rw [hfin]
    refine ⟨?_, ?_, ?_, hn⟩
    · intro e he
      exact hq e he
    · intro r hr2
      simp at hr2
    · intro p hp
      rcases List.mem_append.mp hp with hp | hp
      · exact hs p hp
      · simp only [List.mem_singleton] at hp
        subst hp
        exact hid
  | cons e2 rest =>
    have hfin : finishEntry st id0 b =
        { st with settled := st.settled ++ [(id0, b)], queue := rest, running := some (startEntry e2) } := by
      unfold finishEntry
      simp [hqe]
    rw [hfin]
    refine ⟨?_, ?_, ?_, hn⟩
    · intro e he
      apply hq
      rw [hqe]
      exact List.mem_cons_of_mem _ he
    · intro r hr2
      simp only [Option.some.injEq] at hr2
      subst hr2
      show e2.id ≠ i
      apply hq
      rw [hqe]
      exact List.mem_cons_self _ _
    · intro p hp
      rcases List.mem_append.mp hp with hp | hp
      · exact hs p hp
      · simp only [List.mem_singleton] at hp
        subst hp
        exact hid

/-- Every transition keeps a dead ordinal dead: it can never settle or run
again. -/
theorem deadId_step (i : Nat) (st : TtsState) (e : TtsEv) (h : DeadId i st) :
    DeadId i (ttsStep st e) := by
  obtain ⟨hq, hr, hs, hn⟩ := h
  cases e with
  | enqueue s =>
    by_cases hpl : st.playing
    · have hstep : ttsStep st (.enqueue s) =
          { st with nextId := st.nextId + 1, queue := st.queue ++ [⟨st.nextId, s⟩] } := by
        simp [ttsStep, hpl]
      rw [hstep]
      refine ⟨?_, hr, hs, ?_⟩
      · intro e2 he2
        rcases List.mem_append.mp he2 with he2 | he2
        · exact hq e2 he2
        · simp only [List.mem_singleton] at he2
          subst he2
          show st.nextId ≠ i
          omega
      · show i < st.nextId + 1
        omega
    · have hstep : ttsStep st (.enqueue s) =
          { st with nextId := st.nextId + 1, playing := true, running := some (startEntry ⟨st.nextId, s⟩) } := by
        simp [ttsStep, hpl]
      rw [hstep]
      refine ⟨hq, ?_, hs, ?_⟩
      · intro r hr2
        simp only [Option.some.injEq] at hr2
        subst hr2
        show st.nextId ≠ i
        omega
      · show i < st.nextId + 1
        omega
  | step =>
    cases hrr : st.running with
    | none =>
      have hstep : ttsStep st .step = st := by simp [ttsStep, hrr]
      rw [hstep]
      exact ⟨hq, hr, hs, hn⟩
    | some r =>
      have hid : r.entry.id ≠ i := hr r hrr
      by_cases hab : r.aborted
      · have hstep : ttsStep st .step = finishEntry st r.entry.id true := by
          simp [ttsStep, hrr, hab]
        rw [hstep]
        exact deadId_finish i st r.entry.id true hid ⟨hq, hr, hs, hn⟩
      · cases hscript : r.entry.script with
        | failing =>
          have hstep : ttsStep st .step = finishEntry st r.entry.id false := by
            simp [ttsStep, hrr, hab, hscript]
          rw [hstep]
          exact deadId_finish i st r.entry.id false hid ⟨hq, hr, hs, hn⟩
        | ok k =>
          by_cases hrem : r.remaining > 0
          · have hstep : ttsStep st .step =
                { st with running := some { r with remaining := r.remaining - 1 }, output := st.output ++ [.media r.entry.id] } := by
              simp [ttsStep, hrr, hab, hscript, hrem]
            rw [hstep]
            refine ⟨hq, ?_, hs, hn⟩
            intro r2 hr2
            simp only [Option.some.injEq] at hr2
            subst hr2
            exact hid
          · have hstep : ttsStep st .step =
                finishEntry { st with output := st.output ++ [.mark r.entry.id] } r.entry.id true := by
              simp [ttsStep, hrr, hab, hscript, hrem]
            rw [hstep]
            exact deadId_finish i _ r.entry.id true hid ⟨hq, hr, hs, hn⟩
  | clear =>
    refine ⟨?_, ?_, hs, hn⟩
    · intro e2 he2
      simp [ttsStep] at he2
    · intro r2 hr2
      simp only [ttsStep, Option.map_eq_some'] at hr2
      obtain ⟨r0, hr0, hr0eq⟩ := hr2
      subst hr0eq
      exact hr r0 hr0

/-- A dead ordinal stays dead along any run. -/
theorem deadId_run (i : Nat) (st : TtsState) (tr : List TtsEv) (h : DeadId i st) :
    DeadId i (ttsRun st tr) := by
  induction tr generalizing st with
  | nil => exact h
  | cons e es ih => exact ih (ttsStep st e) (deadId_step i st e h)

/-- Settling preserves abort-safety provided the settling operation, when
it is the tracked one, resolves. -/
theorem abortSafe_finish (i : Nat) (st : TtsState) (id0 : Nat) (b : Bool)
    (hid : id0 = i → b = true) (h : AbortSafe i st) : AbortSafe i (finishEntry st id0 b) := by
  obtain ⟨hset, hq, hrn, hn⟩ := h
  cases hqe : st.queue with
  | nil =>
    have hfin : finishEntry st id0 b =
        { st with settled := st.settled ++ [(id0, b)], running := none, playing := false } := by
      unfold finishEntry
      simp [hqe]
    rw [hfin]
    refine ⟨?_, ?_, ?_, hn⟩
    · intro p hp hpi
      rcases List.mem_append.mp hp with hp | hp
      · exact hset p hp hpi
      · simp only [List.mem_singleton] at hp
        subst hp
        exact hid hpi
    · intro e he
      exact hq e he
    · intro r hr2
      simp at hr2
  | cons e2 rest =>
    have hfin : finishEntry st id0 b =
        { st with settled := st.settled ++ [(id0, b)], queue := rest, running := some (startEntry e2) } := by
      unfold finishEntry
      simp [hqe]
    rw [hfin]
    refine ⟨?_, ?_, ?_, hn⟩
    · intro p hp hpi
      rcases List.mem_append.mp hp with hp | hp
      · exact hset p hp hpi
      · simp only [List.mem_singleton] at hp
        subst hp
        exact hid hpi
    · intro e he
      apply hq
      rw [hqe]
      exact List.mem_cons_of_mem _ he
    · intro r hr2 hri
      simp only [Option.some.injEq] at hr2
      subst hr2
      exfalso
      apply hq e2 (by rw [hqe]; exact List.mem_cons_self _ _)
      exact hri

/-- Every transition preserves abort-safety of an ordinal. -/
theorem abortSafe_step (i : Nat) (st : TtsState) (e : TtsEv) (h : AbortSafe i st) :
    AbortSafe i (ttsStep st e) := by
  obtain ⟨hset, hq, hrn, hn⟩ := h
  cases e with
  | enqueue s =>
    by_cases hpl : st.playing
    · have hstep : ttsStep st (.enqueue s) =
          { st with nextId := st.nextId + 1, queue := st.queue ++ [⟨st.nextId, s⟩] } := by
        simp [ttsStep, hpl]
      rw [hstep]
      refine ⟨hset, ?_, hrn, ?_⟩
      · intro e2 he2
        rcases List.mem_append.mp he2 with he2 | he2
        · exact hq e2 he2
        · simp only [List.mem_singleton] at he2
          subst he2
          show st.nextId ≠ i
          omega
      · show i < st.nextId + 1
        omega
    · have hstep : ttsStep st (.enqueue s) =
          { st with nextId := st.nextId + 1, playing := true, running := some (startEntry ⟨st.nextId, s⟩) } := by
        simp [ttsStep, hpl]
      rw [hstep]
      refine ⟨hset, hq, ?_, ?_⟩
      · intro r hr2 hri
        simp only [Option.some.injEq] at hr2
        subst hr2
        exfalso
        simp only [startEntry] at hri
        omega
      · show i < st.nextId + 1
        omega
  | step =>
    cases hrr : st.running with
    | none =>
      have hstep : ttsStep st .step = st := by simp [ttsStep, hrr]
      rw [hstep]
      exact ⟨hset, hq, hrn, hn⟩
    | some r =>
      by_cases hab : r.aborted
      · have hstep : ttsStep st .step = finishEntry st r.entry.id true := by
          simp [ttsStep, hrr, hab]
        rw [hstep]
        exact abortSafe_finish i st r.entry.id true (fun _ => rfl) ⟨hset, hq, hrn, hn⟩
      · cases hscript : r.entry.script with
        | failing =>
          have hstep : ttsStep st .step = finishEntry st r.entry.id false := by
            simp [ttsStep, hrr, hab, hscript]
          rw [hstep]
          refine abortSafe_finish i st r.entry.id false ?_ ⟨hset, hq, hrn, hn⟩
          intro heq
          exact absurd (hrn r hrr heq) hab
        | ok k =>
          by_cases hrem : r.remaining > 0
          · have hstep : ttsStep st .step =
                { st with running := some { r with remaining := r.remaining - 1 }, output := st.output ++ [.media r.entry.id] } := by
              simp [ttsStep, hrr, hab, hscript, hrem]
            rw [hstep]
            refine ⟨hset, hq, ?_, hn⟩
            intro r2 hr2 hri
            simp only [Option.some.injEq] at hr2
            subst hr2
            exact hrn r hrr hri
          · have hstep : ttsStep st .step =
                finishEntry { st with output := st.output ++ [.mark r.entry.id] } r.entry.id true := by
              simp [ttsStep, hrr, hab, hscript, hrem]
            rw [hstep]
            exact abortSafe_finish i _ r.entry.id true (fun _ => rfl) ⟨hset, hq, hrn, hn⟩
  | clear =>
    refine ⟨hset, ?_, ?_, hn⟩
    · intro e2 he2
      simp [ttsStep] at he2
    · intro r2 hr2 _
      simp only [ttsStep, Option.map_eq_some'] at hr2
      obtain ⟨r0, _, hr0eq⟩ := hr2
      subst hr0eq
      rfl

/-- Abort-safety holds along any run. -/
theorem abortSafe_run (i : Nat) (st : TtsState) (tr : List TtsEv) (h : AbortSafe i st) :
    AbortSafe i (ttsRun st tr) := by
  induction tr generalizing st with
  | nil => exact h
  | cons e es ih => exact ih (ttsStep st e) (abortSafe_step i st e h)

/-- Settling never revives an old operation. -/
theorem noOldLive_finish (n : Nat) (st : TtsState) (id0 : Nat) (b : Bool)
    (h : NoOldLive n st) : NoOldLive n (finishEntry st id0 b) := by
  obtain ⟨hq, hrn, hn⟩ := h
  cases hqe : st.queue with
  | nil =>
    have hfin : finishEntry st id0 b =
        { st with settled := st.settled ++ [(id0, b)], running := none, playing := false } := by
      unfold finishEntry
      simp [hqe]
    rw [hfin]
    refine ⟨?_, ?_, hn⟩
    · intro e he
      exact hq e he
    · intro r hr2
      simp at hr2
  | cons e2 rest =>
    have hfin : finishEntry st id0 b =
        { st with settled := st.settled ++ [(id0, b)], queue := rest, running := some (startEntry e2) } := by
      unfold finishEntry
      simp [hqe]
    rw [hfin]
    refine ⟨?_, ?_, hn⟩
    · intro e he
      apply hq
      rw [hqe]
      exact List.mem_cons_of_mem _ he
    · intro r hr2 _
      simp only [Option.some.injEq] at hr2
      subst hr2
      show n ≤ e2.id
      apply hq
      rw [hqe]
      exact List.mem_cons_self _ _

/-- Every transition preserves `NoOldLive n`, and any frames it appends to
the carrier belong to operations of ordinal `≥ n` (or are clears). -/
theorem noOldLive_step (n : Nat) (st : TtsState) (e : TtsEv) (h : NoOldLive n st) :
    NoOldLive n (ttsStep st e)
    ∧ ∃ δ, (ttsStep st e).output = st.output ++ δ ∧ ∀ f ∈ δ, FrameOk n f := by
  obtain ⟨hq, hrn, hn⟩ := h
  cases e with
  | enqueue s =>
    by_cases hpl : st.playing
    · have hstep : ttsStep st (.enqueue s) =
          { st with nextId := st.nextId + 1, queue := st.queue ++ [⟨st.nextId, s⟩] } := by
        simp [ttsStep, hpl]
      rw [hstep]
      refine ⟨⟨?_, hrn, ?_⟩, [], by simp, by simp⟩
      · intro e2 he2
        rcases List.mem_append.mp he2 with he2 | he2
        · exact hq e2 he2
        · simp only [List.mem_singleton] at he2
          subst he2
          show n ≤ st.nextId
          omega
      · show n ≤ st.nextId + 1
        omega
    · have hstep : ttsStep st (.enqueue s) =
          { st with nextId := st.nextId + 1, playing := true, running := some (startEntry ⟨st.nextId, s⟩) } := by
        simp [ttsStep, hpl]
      rw [hstep]
      refine ⟨⟨hq, ?_, ?_⟩, [], by simp, by simp⟩
      · intro r hr2 _
        simp only [Option.some.injEq] at hr2
        subst hr2
        simp only [startEntry]
        omega
      · show n ≤ st.nextId + 1
        omega
  | step =>
    cases hrr : st.running with
    | none =>
      have hstep : ttsStep st .step = st := by simp [ttsStep, hrr]
      rw [hstep]
      exact ⟨⟨hq, hrn, hn⟩, [], by simp, by simp⟩
    | some r =>
      by_cases hab : r.aborted
      · have hstep : ttsStep st .step = finishEntry st r.entry.id true := by
          simp [ttsStep, hrr, hab]
        rw [hstep]
        refine ⟨noOldLive_finish n st r.entry.id true ⟨hq, hrn, hn⟩, [], ?_, by simp⟩
        unfold finishEntry
        cases hqe : st.queue <;> simp [hqe]
      · cases hscript : r.entry.script with
        | failing =>
          have hstep : ttsStep st .step = finishEntry st r.entry.id false := by
            simp [ttsStep, hrr, hab, hscript]
          rw [hstep]
          refine ⟨noOldLive_finish n st r.entry.id false ⟨hq, hrn, hn⟩, [], ?_, by simp⟩
          unfold finishEntry
          cases hqe : st.queue <;> simp [hqe]
        | ok k =>
          have hok : n ≤ r.entry.id := hrn r hrr (by simpa using hab)
          by_cases hrem : r.remaining > 0
          · have hstep : ttsStep st .step =
                { st with running := some { r with remaining := r.remaining - 1 }, output := st.output ++ [.media r.entry.id] } := by
              simp [ttsStep, hrr, hab, hscript, hrem]
            rw [hstep]
            refine ⟨⟨hq, ?_, hn⟩, [.media r.entry.id], by simp, ?_⟩
            · intro r2 hr2 _
              simp only [Option.some.injEq] at hr2
              subst hr2
              exact hok
            · intro f hf
              simp only [List.mem_singleton] at hf
              subst hf
              exact hok
          · have hstep : ttsStep st .step =
                finishEntry { st with output := st.output ++ [.mark r.entry.id] } r.entry.id true := by
              simp [ttsStep, hrr, hab, hscript, hrem]
            rw [hstep]
            refine ⟨noOldLive_finish n _ r.entry.id true ⟨hq, hrn, hn⟩, [.mark r.entry.id], ?_, ?_⟩
            · unfold finishEntry
              cases hqe : st.queue <;> simp [hqe]
            · intro f hf
              simp only [List.mem_singleton] at hf
              subst hf
              exact hok
  | clear =>
    refine ⟨⟨?_, ?_, hn⟩, [.clear], by simp [ttsStep], ?_⟩
    · intro e2 he2
      simp [ttsStep] at he2
    · intro r2 hr2 habs
      simp only [ttsStep, Option.map_eq_some'] at hr2
      obtain ⟨r0, _, hr0eq⟩ := hr2
      subst hr0eq
      simp at habs
    · intro f hf
      simp only [List.mem_singleton] at hf
      subst hf
      trivial

/-- Predicate `NoOldLive n` holds along any run, and all frames emitted along the way
belong to operations of ordinal `≥ n` (or are clears). -/
theorem noOldLive_run (n : Nat) (st : TtsState) (tr : List TtsEv) (h : NoOldLive n st) :
    NoOldLive n (ttsRun st tr)
    ∧ ∃ δ, (ttsRun st tr).output = st.output ++ δ ∧ ∀ f ∈ δ, FrameOk n f := by
  induction tr generalizing st with
  | nil => exact ⟨h, [], by simp [ttsRun], by simp⟩
  | cons e es ih =>
    obtain ⟨h1, δ1, ho1, hf1⟩ := noOldLive_step n st e h
    obtain ⟨h2, δ2, ho2, hf2⟩ := ih (ttsStep st e) h1
    refine ⟨h2, δ1 ++ δ2, ?_, ?_⟩
    · show (ttsRun (ttsStep st e) es).output = _
      rw [ho2, ho1, List.append_assoc]
    · intro f hf
      rcases List.mem_append.mp hf with hf | hf
      · exact hf1 f hf
      · exact hf2 f hf

/-- Counterexample to C1 as stated: with one operation playing and one
queued, `clearTtsQueue` followed by the next scheduler step leaves the
system quiescent (empty queue, nothing running, `ttsPlaying` unset) with
only the in-flight operation settled.  The queued operation (ordinal 1) was
dropped by `queue.length = 0` without its `resolve` ever being invoked, so
its promise neither resolved nor rejected — the claim requires it to have
resolved. -/
theorem clearTtsQueue_pending_counterexample :
    (1, true) ∉ (ttsRun initTts [.enqueue (.ok 1), .enqueue (.ok 1), .clear, .step]).settled
    ∧ (ttsRun initTts [.enqueue (.ok 1), .enqueue (.ok 1), .clear, .step]).settled = [(0, true)]
    ∧ (ttsRun initTts [.enqueue (.ok 1), .enqueue (.ok 1), .clear, .step]).queue = []
    ∧ (ttsRun initTts [.enqueue (.ok 1), .enqueue (.ok 1), .clear, .step]).running = none
    ∧ (ttsRun initTts [.enqueue (.ok 1), .enqueue (.ok 1), .clear, .step]).playing = false := by
  decide

/-- C1 (amended): `clearTtsQueue` aborts the in-flight signal, emits a
`clear` frame to the carrier, and no media (or mark) frame of any
operation enqueued before the call is emitted afterwards; the dropped
queued operations never settle at all (rather than resolving), and the
in-flight operation, if it settles later, resolves. -/
theorem clearTtsQueue_correct (st : TtsState) (hinv : TtsInv st) (tr : List TtsEv) :
    (ttsStep st .clear).output = st.output ++ [Frame.clear]
    ∧ (∀ r, st.running = some r → (ttsStep st .clear).running = some { r with aborted := true })
    ∧ (∀ e ∈ st.queue, ∀ p ∈ (ttsRun (ttsStep st .clear) tr).settled, p.1 ≠ e.id)
    ∧ (∀ r, st.running = some r → ∀ p ∈ (ttsRun (ttsStep st .clear) tr).settled,
        p.1 = r.entry.id → p.2 = true)
    ∧ (∃ δ, (ttsRun (ttsStep st .clear) tr).output = st.output ++ [Frame.clear] ++ δ
        ∧ ∀ f ∈ δ, FrameOk st.nextId f) := by
  have hsep := ttsInv_separation st hinv
  have hq' : (ttsStep st .clear).queue = [] := by simp [ttsStep]
  have hr' : (ttsStep st .clear).running =
      st.running.map (fun r => { r with aborted := true }) := by simp [ttsStep]
  have hn' : (ttsStep st .clear).nextId = st.nextId := by simp [ttsStep]
  have hs' : (ttsStep st .clear).settled = st.settled := by simp [ttsStep]
  have hout : (ttsStep st .clear).output = st.output ++ [Frame.clear] := by simp [ttsStep]
  refine ⟨hout, ?_, ?_, ?_, ?_⟩
  · intro r hr
    rw [hr', hr]
    rfl
  · intro e he
    have hlt : e.id < st.nextId := by
      apply hinv.ids_lt_next
      unfold allIds
      exact List.mem_append_right _ (List.mem_map_of_mem _ he)
    have hdead : DeadId e.id (ttsStep st .clear) := by
      refine ⟨?_, ?_, ?_, ?_⟩
      · rw [hq']
        intro e2 he2
        simp at he2
      · intro r2 hr2
        rw [hr'] at hr2
        rw [Option.map_eq_some'] at hr2
        obtain ⟨r0, hr0, hr0eq⟩ := hr2
        subst hr0eq
        show r0.entry.id ≠ e.id
        have := hsep.2.2 r0 hr0 e he
        omega
      · rw [hs']
        intro p hp
        have := hsep.1 p hp e he
        omega
      · rw [hn']
        exact hlt
    exact (deadId_run e.id (ttsStep st .clear) tr hdead).2.2.1
  · intro r hr
    have hmem : r.entry.id ∈ allIds st := by
      unfold allIds
      apply List.mem_append_left
      apply List.mem_append_right
      rw [hr]
      simp
    have hsafe : AbortSafe r.entry.id (ttsStep st .clear) := by
      refine ⟨?_, ?_, ?_, ?_⟩
      · rw [hs']
        intro p hp heq
        have := hsep.2.1 r hr p hp
        omega
      · rw [hq']
        intro e2 he2
        simp at he2
      · intro r2 hr2 _
        rw [hr', hr] at hr2
        simp only [Option.map_some', Option.some.injEq] at hr2
        subst hr2
        rfl
      · rw [hn']
        exact hinv.ids_lt_next _ hmem
    exact (abortSafe_run r.entry.id (ttsStep st .clear) tr hsafe).1
  · have hnol : NoOldLive st.nextId (ttsStep st .clear) := by
      refine ⟨?_, ?_, ?_⟩
      · rw [hq']
        intro e2 he2
        simp at he2
      · intro r2 hr2 habs
        rw [hr'] at hr2
        rw [Option.map_eq_some'] at hr2
        obtain ⟨r0, _, hr0eq⟩ := hr2
        subst hr0eq
        simp at habs
      · rw [hn']
    obtain ⟨_, δ, ho, hfr⟩ := noOldLive_run st.nextId (ttsStep st .clear) tr hnol
    exact ⟨δ, by rw [ho, hout], hfr⟩

/-- Witness for the amended C1 at a concrete state: with operation 0 in
flight (two frames pending) and operation 1 queued, the clear emits the
`clear` frame, aborts operation 0, and the continuation settles only
operation 0, resolving it. -/
theorem clearTtsQueue_correct_witness :
    (ttsStep (ttsRun initTts [TtsEv.enqueue (.ok 2), TtsEv.enqueue (.ok 2)]) .clear).output =
      (ttsRun initTts [TtsEv.enqueue (.ok 2), TtsEv.enqueue (.ok 2)]).output ++ [Frame.clear]
    ∧ (ttsStep (ttsRun initTts [TtsEv.enqueue (.ok 2), TtsEv.enqueue (.ok 2)]) .clear).running =
      some ⟨⟨0, .ok 2⟩, 2, true⟩
    ∧ (ttsRun (ttsStep (ttsRun initTts [TtsEv.enqueue (.ok 2), TtsEv.enqueue (.ok 2)]) .clear)
        [TtsEv.step]).settled = [(0, true)] := by
  have h := clearTtsQueue_correct (ttsRun initTts [TtsEv.enqueue (.ok 2), TtsEv.enqueue (.ok 2)])
    (ttsInv_run initTts ttsInv_init [TtsEv.enqueue (.ok 2), TtsEv.enqueue (.ok 2)]) [TtsEv.step]
  exact ⟨h.1, h.2.1 ⟨⟨0, .ok 2⟩, 2, false⟩ (by decide), by decide⟩

end VoiceBridge
